import Mathlib

/-!
# Verification of the `dice_parser` package

A shallow embedding of the `dice_parser` repository: the keep-modifier
classes and dice roller, the `_ParseResult` node type, the semantic actions
of `DiceTransformer`, and the public `DiceParser.parse` facade.

Python `_ParseResult` objects are mutable and passed by reference — in
particular `dice_size` assigns `result.value = 0` in place, and `var`
returns the very node object stored in `DiceTransformer.vars` — so the
embedding models the transformer's object graph explicitly: a heap of
nodes addressed by allocation order, with `vars` mapping a name to the
address of its bound node.

Grammar productions are embedded as the inductive `Expr`; evaluating an
`Expr` corresponds to the LALR parser reducing the productions bottom-up,
left to right, invoking each semantic action as soon as its children are
evaluated (lark's `transformer=` mode builds no tree).
-/

/-- Keep-modifier variants: `NullDiceModifier`, `HighestDiceModifier(count)`
and `LowestDiceModifier(count)` from `dice_parser/transformer.py`. -/
inductive DiceModifier where
  | null : DiceModifier
  | highest (count : Int) : DiceModifier
  | lowest (count : Int) : DiceModifier
deriving DecidableEq, Repr

/-- Modelled from the spec: `DiceModifier._safe_count` lives in
`dice_parser/modifier.py`, which is not under `src/`. Per the spec (§3,
§4.4) the keep count is "clamped to `[0, len(outcomes)]` before use
('safe count')". -/
def DiceModifier.safeCount (count : Int) (dice : List Int) : Nat :=
  min (max count 0).toNat dice.length

/-- `get_actual_dice` of the three modifier classes
(`dice_parser/transformer.py`, lines 10–29). Python's `sorted` is modelled
by `List.insertionSort (· ≤ ·)`: on integers both produce the unique
ascending reordering of the list. -/
def DiceModifier.getActualDice : DiceModifier → List Int → List Int × List Int
  | .null, dice => (dice, [])
  | .highest c, dice =>
      let sortedDice := dice.insertionSort (· ≤ ·)
      let count := safeCount c dice
      let n := sortedDice.length
      (sortedDice.drop (n - count), sortedDice.take (n - count))
  | .lowest c, dice =>
      let sortedDice := dice.insertionSort (· ≤ ·)
      let count := safeCount c dice
      (sortedDice.take count, sortedDice.drop count)

/-- Modelled from the spec: `DiceRoller` lives in
`dice_parser/dice_roller.py`, which is not under `src/`. A roller holds a
count, a face size and a modifier (§4.3). -/
structure DiceRoller where
  count : Int
  size : Int
  modifier : DiceModifier
deriving DecidableEq, Repr

/-- Modelled from the spec (§4.3): "generate `count` independent random
integers, each uniformly drawn from `[1, size]` if `size ≥ 1`; if `size` is
0 (post-clamp), every outcome is 0 and no randomness is consumed."
`gen` is the pseudo-random stream: `gen i` is the `i`-th draw made by this
transformer, `start` the number of draws consumed so far. A negative count
produces no outcomes (Python's `range`). -/
def DiceRoller.rolledDice (r : DiceRoller) (gen : Nat → Int) (start : Nat) : List Int :=
  if 1 ≤ r.size then (List.range r.count.toNat).map (fun i => gen (start + i))
  else List.replicate r.count.toNat 0

/-- Modelled from the spec (§4.3): number of random draws one roll consumes
(none when the size was clamped to 0). -/
def DiceRoller.consumed (r : DiceRoller) : Nat :=
  if 1 ≤ r.size then r.count.toNat else 0

/-- Modelled from the spec (§4.3): `roll` returns `(total, outcomes)`;
`total` is the sum of the outcomes kept by the modifier and `outcomes` the
full generated list in generation order. -/
def DiceRoller.roll (r : DiceRoller) (gen : Nat → Int) (start : Nat) : Int × List Int :=
  let dice := r.rolledDice gen start
  ((r.modifier.getActualDice dice).1.sum, dice)

/-- Decimal digit list of a natural number, most significant digit first,
with explicit recursion fuel (any `fuel > n` yields the digits of `n`). -/
def natDigitsAux : Nat → Nat → List Char
  | 0, _ => []
  | fuel + 1, n =>
      if n < 10 then [Char.ofNat (48 + n)]
      else natDigitsAux fuel (n / 10) ++ [Char.ofNat (48 + n % 10)]

/-- Decimal digit list of a natural number, most significant digit first;
models Python's `str` on a non-negative `int`. -/
def natDigits (n : Nat) : List Char := natDigitsAux (n + 1) n

/-- Python's `str` on a non-negative `int`. -/
def natRepr (n : Nat) : String := ⟨natDigits n⟩

/-- Python's `str` on an `int`. -/
def intRepr (i : Int) : String :=
  if i < 0 then "-" ++ natRepr (-i).toNat else natRepr i.toNat

/-- The `value` slot of an `InternalParseResult`: `int | DiceModifier`
(`dice_parser/parser_result.py`). -/
inductive NodeValue where
  | int (n : Int) : NodeValue
  | mod (m : DiceModifier) : NodeValue
deriving DecidableEq, Repr

/-- `InternalParseResult` from `dice_parser/parser_result.py` (the class
also appears as `_ParseResult` in `dice_parser/__init__.py` with identical
fields): a mutable node carrying `value`, `string` and `flag`. -/
structure InternalParseResult where
  value : NodeValue
  string : Option String
  flag : Option String
deriving DecidableEq, Repr

/-- The public `ParseResult` dataclass. -/
structure ParseResult where
  value : Int
  string : String
deriving DecidableEq, Repr

/-- The failures the Python code can raise while parsing/evaluating:
`KeyError` from `var` on an unbound name, `TypeError` from an arithmetic
operator applied to a modifier value, `ZeroDivisionError` from
`operator.floordiv(_, 0)`, and failed `assert` statements. -/
inductive EvalError where
  | unboundVariable (name : String) : EvalError
  | typeError : EvalError
  | zeroDivision : EvalError
  | assertionFailed : EvalError
deriving DecidableEq, Repr

/-- The mutable state of one `DiceTransformer` instance: the heap fragment
of `_ParseResult` objects it has created (addresses are indices, in
allocation order), `DiceTransformer.vars` as a name-to-address association
list (Python dicts store object references), and the count of random draws
consumed so far. -/
structure EvalState where
  heap : List InternalParseResult
  vars : List (String × Nat)
  randIdx : Nat
deriving DecidableEq, Repr

def emptyNode : InternalParseResult := ⟨.int 0, none, none⟩

/-- Dereference an address (addresses produced by evaluation are always
in range; the default is never reached). -/
def heapGet (st : EvalState) (i : Nat) : InternalParseResult :=
  st.heap.getD i emptyNode

/-- In-place mutation of the object at address `i`. -/
def heapSet (st : EvalState) (i : Nat) (r : InternalParseResult) : EvalState :=
  { st with heap := st.heap.set i r }

/-- Construct a fresh `_ParseResult` object: returns its address. -/
def alloc (st : EvalState) (r : InternalParseResult) : Nat × EvalState :=
  (st.heap.length, { st with heap := st.heap ++ [r] })

/-- `self.vars[name]` lookup (first binding wins, as in a dict). -/
def lookupVar : List (String × Nat) → String → Option Nat
  | [], _ => none
  | (k, v) :: rest, name => if k = name then some v else lookupVar rest name

/-- `self.vars[name] = addr`: overwrite an existing binding or append. -/
def updateVar : List (String × Nat) → String → Nat → List (String × Nat)
  | [], name, a => [(name, a)]
  | (k, v) :: rest, name, a =>
      if k = name then (name, a) :: rest else (k, v) :: updateVar rest name a

/-- `DiceTransformer.__init__`: empty `vars`, nothing allocated, no random
draws consumed. This is the transformer created once per `DiceParser`
instance (`DiceParser.__init__`). -/
def initState : EvalState := ⟨[], [], 0⟩

mutual
/-- Parse trees of `DiceParser.GRAMMAR`, one constructor per production
alias. A `roll` production has up to three children — `dice_count?`,
`dice_size?`, `dice_modifier?` in that order — hence the three optional
slots; `diceHighest`/`diceLowest` are the two `dice_modifier` alternatives
(`("h"|"H") atom` and `("l"|"L") atom`). -/
inductive Expr where
  | number (n : Nat) : Expr
  | add (a b : Expr) : Expr
  | sub (a b : Expr) : Expr
  | mul (a b : Expr) : Expr
  | div (a b : Expr) : Expr
  | neg (a : Expr) : Expr
  | brackets (a : Expr) : Expr
  | var (name : String) : Expr
  | assignVar (name : String) (e : Expr) : Expr
  | diceCount (a : Expr) : Expr
  | diceSize (a : Expr) : Expr
  | diceHighest (a : Expr) : Expr
  | diceLowest (a : Expr) : Expr
  | roll (count size modifier : OptExpr) : Expr

/-- An optional child of the `roll` production. -/
inductive OptExpr where
  | none : OptExpr
  | some (e : Expr) : OptExpr
end

/-- Python's `'{}'.format(x)` on `str | None`: `None` formats as `"None"`
(the operator templates are only ever filled after the value computation
succeeded, which is why no error is raised here). -/
def fmtOpt : Option String → String
  | Option.none => "None"
  | Option.some s => s

/-- `_ParseResult.operator`: apply the integer operation to the children's
values — Python evaluates `operator_callable(*(x.value for x in args))`
first, raising `TypeError` if a value is a modifier — then fill the
template with the children's strings. -/
def opResult (f : Int → Int → Except EvalError Int) (sep : String)
    (r₁ r₂ : InternalParseResult) : Except EvalError InternalParseResult :=
  match r₁.value, r₂.value with
  | .int a, .int b =>
      (f a b).map (fun n =>
        ⟨.int n, Option.some (fmtOpt r₁.string ++ sep ++ fmtOpt r₂.string), Option.none⟩)
  | _, _ => .error .typeError

/-- `neg = _ParseResult.operator(operator.neg, '-{}')`. -/
def negResult (r : InternalParseResult) : Except EvalError InternalParseResult :=
  match r.value with
  | .int a => .ok ⟨.int (-a), Option.some ("-" ++ fmtOpt r.string), Option.none⟩
  | .mod _ => .error .typeError

/-- The scanning loop of `DiceTransformer.roll` (lines 115–124 of
`dice_parser/__init__.py`): fold over the child results, routing each by
its flag into the count/size/modifier slot (each child has at most one
flag, so the three `if` statements act as alternatives) and asserting the
expected value kind. -/
def rollScan (st : EvalState) :
    List Nat → Int → Int → DiceModifier → Except EvalError (Int × Int × DiceModifier)
  | [], count, size, modifier => .ok (count, size, modifier)
  | i :: rest, count, size, modifier =>
      let r := heapGet st i
      if r.flag = Option.some "dice_count" then
        match r.value with
        | .int v => rollScan st rest v size modifier
        | .mod _ => .error .assertionFailed
      else if r.flag = Option.some "dice_size" then
        match r.value with
        | .int v => rollScan st rest count v modifier
        | .mod _ => .error .assertionFailed
      else if r.flag = Option.some "dice_modifier" then
        match r.value with
        | .mod m => rollScan st rest count size m
        | .int _ => .error .assertionFailed
      else rollScan st rest count size modifier

mutual
/-- The semantic actions of `DiceTransformer`
(`dice_parser/__init__.py`, lines 70–152), invoked bottom-up, left to
right, as the LALR parser reduces; returns the address of the produced
node (for `var`, the address of the stored node itself). -/
def evalExpr (gen : Nat → Int) : Expr → EvalState → Except EvalError (Nat × EvalState)
  | .number n, st =>
      .ok (alloc st ⟨.int n, Option.some (natRepr n), Option.none⟩)
  | .add a b, st =>
      match evalExpr gen a st with
      | .error e => .error e
      | .ok (i₁, st₁) =>
          match evalExpr gen b st₁ with
          | .error e => .error e
          | .ok (i₂, st₂) =>
              match opResult (fun x y => .ok (x + y)) " + " (heapGet st₂ i₁) (heapGet st₂ i₂) with
              | .error e => .error e
              | .ok r => .ok (alloc st₂ r)
  | .sub a b, st =>
      match evalExpr gen a st with
      | .error e => .error e
      | .ok (i₁, st₁) =>
          match evalExpr gen b st₁ with
          | .error e => .error e
          | .ok (i₂, st₂) =>
              match opResult (fun x y => .ok (x - y)) " - " (heapGet st₂ i₁) (heapGet st₂ i₂) with
              | .error e => .error e
              | .ok r => .ok (alloc st₂ r)
  | .mul a b, st =>
      match evalExpr gen a st with
      | .error e => .error e
      | .ok (i₁, st₁) =>
          match evalExpr gen b st₁ with
          | .error e => .error e
          | .ok (i₂, st₂) =>
              match opResult (fun x y => .ok (x * y)) " * " (heapGet st₂ i₁) (heapGet st₂ i₂) with
              | .error e => .error e
              | .ok r => .ok (alloc st₂ r)
  | .div a b, st =>
      match evalExpr gen a st with
      | .error e => .error e
      | .ok (i₁, st₁) =>
          match evalExpr gen b st₁ with
          | .error e => .error e
          | .ok (i₂, st₂) =>
              match opResult
                  (fun x y => if y = 0 then .error .zeroDivision else .ok (Int.fdiv x y))
                  " / " (heapGet st₂ i₁) (heapGet st₂ i₂) with
              | .error e => .error e
              | .ok r => .ok (alloc st₂ r)
  | .neg a, st =>
      match evalExpr gen a st with
      | .error e => .error e
      | .ok (i, st₁) =>
          match negResult (heapGet st₁ i) with
          | .error e => .error e
          | .ok r => .ok (alloc st₁ r)
  | .brackets a, st =>
      match evalExpr gen a st with
      | .error e => .error e
      | .ok (i, st₁) =>
          let r := heapGet st₁ i
          .ok (alloc st₁ ⟨r.value, Option.some ("(" ++ fmtOpt r.string ++ ")"), Option.none⟩)
  | .var name, st =>
      match lookupVar st.vars name with
      | Option.some i => .ok (i, st)
      | Option.none => .error (.unboundVariable name)
  | .assignVar name e, st =>
      match evalExpr gen e st with
      | .error err => .error err
      | .ok (i, st₁) =>
          let r := heapGet st₁ i
          let p := alloc st₁ ⟨r.value, Option.some name, Option.none⟩
          let st₃ := { p.2 with vars := updateVar p.2.vars name p.1 }
          .ok (alloc st₃ ⟨r.value, Option.some (name ++ " = " ++ fmtOpt r.string), Option.none⟩)
  | .diceCount a, st =>
      match evalExpr gen a st with
      | .error e => .error e
      | .ok (i, st₁) =>
          let r := heapGet st₁ i
          .ok (alloc st₁ ⟨r.value, r.string, Option.some "dice_count"⟩)
  | .diceSize a, st =>
      match evalExpr gen a st with
      | .error e => .error e
      | .ok (i, st₁) =>
          match (heapGet st₁ i).value with
          | .mod _ => .error .assertionFailed
          | .int v =>
              let st₂ :=
                if v < 1 then
                  heapSet st₁ i ⟨.int 0, (heapGet st₁ i).string, (heapGet st₁ i).flag⟩
                else st₁
              let r := heapGet st₂ i
              .ok (alloc st₂ ⟨r.value, r.string, Option.some "dice_size"⟩)
  | .diceHighest a, st =>
      match evalExpr gen a st with
      | .error e => .error e
      | .ok (i, st₁) =>
          match (heapGet st₁ i).value with
          | .mod _ => .error .assertionFailed
          | .int v =>
              .ok (alloc st₁ ⟨.mod (.highest v), Option.none, Option.some "dice_modifier"⟩)
  | .diceLowest a, st =>
      match evalExpr gen a st with
      | .error e => .error e
      | .ok (i, st₁) =>
          match (heapGet st₁ i).value with
          | .mod _ => .error .assertionFailed
          | .int v =>
              .ok (alloc st₁ ⟨.mod (.lowest v), Option.none, Option.some "dice_modifier"⟩)
  | .roll c s m, st =>
      match evalOpt gen c st with
      | .error e => .error e
      | .ok (addrs₁, st₁) =>
          match evalOpt gen s st₁ with
          | .error e => .error e
          | .ok (addrs₂, st₂) =>
              match evalOpt gen m st₂ with
              | .error e => .error e
              | .ok (addrs₃, st₃) =>
                  match rollScan st₃ (addrs₁ ++ addrs₂ ++ addrs₃) 1 20 .null with
                  | .error e => .error e
                  | .ok (count, size, modifier) =>
                      let roller : DiceRoller := ⟨count, size, modifier⟩
                      let rolled := roller.roll gen st₃.randIdx
                      let st₄ := { st₃ with randIdx := st₃.randIdx + roller.consumed }
                      .ok (alloc st₄
                        ⟨.int rolled.1,
                         Option.some ("[" ++ String.intercalate ", " (rolled.2.map intRepr) ++ "]"),
                         Option.none⟩)

/-- Evaluate an optional `roll` child, collecting its node address. -/
def evalOpt (gen : Nat → Int) : OptExpr → EvalState → Except EvalError (List Nat × EvalState)
  | .none, st => .ok ([], st)
  | .some e, st =>
      match evalExpr gen e st with
      | .error err => .error err
      | .ok (i, st') => .ok ([i], st')
end

/-- `DiceParser.parse`: run parser+transformer on one expression and
convert the result via `_ParseResult.to_public_result` (which asserts the
value is an `int` and the string is present). The transformer — and with
it `vars` and the heap — is created once per `DiceParser` instance
(`DiceParser.__init__`) and persists across `parse` calls, so `parse`
threads `EvalState`; a fresh instance starts at `initState`. -/
def DiceParser.parse (gen : Nat → Int) (st : EvalState) (e : Expr) :
    Except EvalError (ParseResult × EvalState) :=
  match evalExpr gen e st with
  | .error err => .error err
  | .ok (i, st') =>
      match heapGet st' i with
      | ⟨.int v, Option.some s, _⟩ => .ok (⟨v, s⟩, st')
      | _ => .error .assertionFailed

/-- A constant pseudo-random stream (every draw is 1), used for the
concrete example parses. -/
def constGen : Nat → Int := fun _ => 1

/-- An integer literal as it is written in the source notation: a `NUMBER`
token, or unary minus applied to one (grammar: `atom := NUMBER | "-" atom`). -/
def intLit (i : Int) : Expr := if i < 0 then .neg (.number (-i).toNat) else .number i.toNat

/-- The parse tree of `"NdM"`: a roll with a count atom and a size atom
and no modifier. -/
def exprNdM (n m : Nat) : Expr :=
  .roll (.some (.diceCount (.number n))) (.some (.diceSize (.number m))) .none

/-- The parse tree of `"NdMH k"`: a roll with count, size and a
keep-highest modifier. -/
def exprNdMH (n m k : Nat) : Expr :=
  .roll (.some (.diceCount (.number n))) (.some (.diceSize (.number m)))
    (.some (.diceHighest (.number k)))

/-- The parse tree of `"NdML k"`: a roll with count, size and a
keep-lowest modifier. -/
def exprNdML (n m k : Nat) : Expr :=
  .roll (.some (.diceCount (.number n))) (.some (.diceSize (.number m)))
    (.some (.diceLowest (.number k)))

/-- Sum of the `k` largest entries of a list, `k` clamped to
`[0, length]`: sort descending and take `k`.  This is the spec's wording
for the keep-highest value, stated independently of the code's
sort-ascending-and-drop implementation. -/
def kLargestSum (k : Int) (dice : List Int) : Int :=
  ((dice.insertionSort (fun a b => b ≤ a)).take (DiceModifier.safeCount k dice)).sum

/-- Sum of the `k` smallest entries of a list, `k` clamped to
`[0, length]`: sort ascending and take `k` (the spec's wording for the
keep-lowest value). -/
def kSmallestSum (k : Int) (dice : List Int) : Int :=
  ((dice.insertionSort (· ≤ ·)).take (DiceModifier.safeCount k dice)).sum

/-- Modelled from the spec: tokens of the grammar's arithmetic fragment.
The parser itself is the external `lark` library driven by
`DiceParser.GRAMMAR`; only the grammar text is in the repository, so the
string-level parse is modelled from it (integer literals, `+ - * / ( )`,
inline whitespace ignored). -/
inductive Tok where
  | num (n : Nat) : Tok
  | plus : Tok
  | minus : Tok
  | star : Tok
  | slash : Tok
  | lparen : Tok
  | rparen : Tok
deriving DecidableEq, Repr

/-- Numeric value of a decimal digit character. -/
def charVal (c : Char) : Nat := c.toNat - 48

/-- Consume a maximal run of digit characters, accumulating their decimal
value (the lexer's maximal-munch rule for `NUMBER`). -/
def takeDigitsParse : List Char → Nat → Nat × List Char
  | [], acc => (acc, [])
  | c :: cs, acc =>
      if c.isDigit then takeDigitsParse cs (acc * 10 + charVal c) else (acc, c :: cs)

/-- Modelled from the spec: the lexer of the arithmetic fragment of
`DiceParser.GRAMMAR` — `NUMBER` is a maximal digit run, the six symbols
lex to themselves, inline whitespace is skipped, anything else is a lexing
failure. -/
def tokenize : List Char → Option (List Tok)
  | [] => some []
  | c :: cs =>
      if c = ' ' then tokenize cs
      else if c.isDigit then
        (tokenize (takeDigitsParse cs (charVal c)).2).map
          (fun ts => .num (takeDigitsParse cs (charVal c)).1 :: ts)
      else if c = '+' then (tokenize cs).map (fun ts => .plus :: ts)
      else if c = '-' then (tokenize cs).map (fun ts => .minus :: ts)
      else if c = '*' then (tokenize cs).map (fun ts => .star :: ts)
      else if c = '/' then (tokenize cs).map (fun ts => .slash :: ts)
      else if c = '(' then (tokenize cs).map (fun ts => .lparen :: ts)
      else if c = ')' then (tokenize cs).map (fun ts => .rparen :: ts)
      else none
termination_by cs => cs.length
decreasing_by
  all_goals
    (have key : ∀ (l : List Char) (acc : Nat), (takeDigitsParse l acc).2.length ≤ l.length := by
        intro l
        induction l with
        | nil => intro _; simp [takeDigitsParse]
        | cons x xs ih =>
            intro acc
            by_cases hx : x.isDigit
            · simp only [takeDigitsParse, hx, ite_true]
              exact le_trans (ih _) (Nat.le_succ _)
            · simp [takeDigitsParse, hx]
     have hk := key cs (charVal c)
     simp only [List.length_cons]
     omega)

mutual
/-- Modelled from the spec: a deterministic single-pass parser for the
arithmetic fragment of the grammar (`sum`, `product`, `atom` with the
source's precedences and left associativity), fused with the arithmetic
semantic actions so it returns the evaluated integer.  Division mirrors
`operator.floordiv`, failing on a zero divisor.  Each function returns the
unconsumed suffix together with a bound on its length, which makes the
mutual recursion well-founded. -/
def parseAtomT : (ts : List Tok) → Option (Int × {l : List Tok // l.length ≤ ts.length})
  | .num n :: ts' => some ((n : Int), ⟨ts', Nat.le_succ_of_le (le_refl _)⟩)
  | .minus :: ts' =>
      match parseAtomT ts' with
      | some (v, ⟨r, hr⟩) => some (-v, ⟨r, Nat.le_succ_of_le hr⟩)
      | none => none
  | .lparen :: ts' =>
      match parseSumT ts' with
      | some (v, ⟨.rparen :: r, hr⟩) =>
          some (v, ⟨r, by simp only [List.length_cons] at hr ⊢; omega⟩)
      | _ => none
  | _ => none
termination_by ts => (ts.length, 0)
decreasing_by all_goals (simp [Prod.lex_def]; try omega)

def parseProductT (ts : List Tok) : Option (Int × {l : List Tok // l.length ≤ ts.length}) :=
  match parseAtomT ts with
  | some (v, ⟨r, hr⟩) =>
      match prodLoopT v r with
      | some (w, ⟨r2, hr2⟩) => some (w, ⟨r2, le_trans hr2 hr⟩)
      | none => none
  | none => none
termination_by (ts.length, 2)
decreasing_by all_goals (simp [Prod.lex_def]; try omega)

def prodLoopT : Int → (ts : List Tok) → Option (Int × {l : List Tok // l.length ≤ ts.length})
  | v, .star :: ts' =>
      match parseAtomT ts' with
      | some (w, ⟨r, hr⟩) =>
          match prodLoopT (v * w) r with
          | some (u, ⟨r2, hr2⟩) =>
              some (u, ⟨r2, Nat.le_succ_of_le (le_trans hr2 hr)⟩)
          | none => none
      | none => none
  | v, .slash :: ts' =>
      match parseAtomT ts' with
      | some (w, ⟨r, hr⟩) =>
          if w = 0 then none
          else
            match prodLoopT (Int.fdiv v w) r with
            | some (u, ⟨r2, hr2⟩) =>
                some (u, ⟨r2, Nat.le_succ_of_le (le_trans hr2 hr)⟩)
            | none => none
      | none => none
  | v, ts => some (v, ⟨ts, le_refl _⟩)
termination_by _v ts => (ts.length, 1)
decreasing_by all_goals (simp [Prod.lex_def]; try omega)

def parseSumT (ts : List Tok) : Option (Int × {l : List Tok // l.length ≤ ts.length}) :=
  match parseProductT ts with
  | some (v, ⟨r, hr⟩) =>
      match sumLoopT v r with
      | some (w, ⟨r2, hr2⟩) => some (w, ⟨r2, le_trans hr2 hr⟩)
      | none => none
  | none => none
termination_by (ts.length, 4)
decreasing_by all_goals (simp [Prod.lex_def]; try omega)

def sumLoopT : Int → (ts : List Tok) → Option (Int × {l : List Tok // l.length ≤ ts.length})
  | v, .plus :: ts' =>
      match parseProductT ts' with
      | some (w, ⟨r, hr⟩) =>
          match sumLoopT (v + w) r with
          | some (u, ⟨r2, hr2⟩) =>
              some (u, ⟨r2, Nat.le_succ_of_le (le_trans hr2 hr)⟩)
          | none => none
      | none => none
  | v, .minus :: ts' =>
      match parseProductT ts' with
      | some (w, ⟨r, hr⟩) =>
          match sumLoopT (v - w) r with
          | some (u, ⟨r2, hr2⟩) =>
              some (u, ⟨r2, Nat.le_succ_of_le (le_trans hr2 hr)⟩)
          | none => none
      | none => none
  | v, ts => some (v, ⟨ts, le_refl _⟩)
termination_by _v ts => (ts.length, 3)
decreasing_by all_goals (simp [Prod.lex_def]; try omega)
end

/-- `parseAtomT` with the length bound erased. -/
def parseAtom (ts : List Tok) : Option (Int × List Tok) :=
  (parseAtomT ts).map (fun p => (p.1, p.2.val))

/-- `parseProductT` with the length bound erased. -/
def parseProduct (ts : List Tok) : Option (Int × List Tok) :=
  (parseProductT ts).map (fun p => (p.1, p.2.val))

/-- `prodLoopT` with the length bound erased: the left-associative
`* /` reduction loop. -/
def prodLoop (v : Int) (ts : List Tok) : Option (Int × List Tok) :=
  (prodLoopT v ts).map (fun p => (p.1, p.2.val))

/-- `parseSumT` with the length bound erased. -/
def parseSum (ts : List Tok) : Option (Int × List Tok) :=
  (parseSumT ts).map (fun p => (p.1, p.2.val))

/-- `sumLoopT` with the length bound erased: the left-associative
`+ -` reduction loop. -/
def sumLoop (v : Int) (ts : List Tok) : Option (Int × List Tok) :=
  (sumLoopT v ts).map (fun p => (p.1, p.2.val))

/-- Modelled from the spec: parsing a pure-arithmetic source string — lex,
parse the start symbol, require all input consumed — returning the
evaluated value. -/
def parseArithString (s : String) : Option Int :=
  match tokenize s.data with
  | none => none
  | some ts =>
      match parseSum ts with
      | some (v, []) => some v
      | _ => none

/-- The value of a pure-arithmetic parse tree (`none` on division by zero
or on any non-arithmetic node), mirroring the arithmetic semantic
actions. -/
def valE : Expr → Option Int
  | .number n => some n
  | .add a b => (valE a).bind (fun x => (valE b).map (fun y => x + y))
  | .sub a b => (valE a).bind (fun x => (valE b).map (fun y => x - y))
  | .mul a b => (valE a).bind (fun x => (valE b).map (fun y => x * y))
  | .div a b =>
      (valE a).bind (fun x => (valE b).bind
        (fun y => if y = 0 then none else some (Int.fdiv x y)))
  | .neg a => (valE a).map (fun x => -x)
  | .brackets a => valE a
  | _ => none

/-- The derivation text the semantic actions produce for a
pure-arithmetic parse tree (the operator templates of
`_ParseResult.operator`, `brackets` and `number`). -/
def render : Expr → String
  | .number n => natRepr n
  | .add a b => render a ++ " + " ++ render b
  | .sub a b => render a ++ " - " ++ render b
  | .mul a b => render a ++ " * " ++ render b
  | .div a b => render a ++ " / " ++ render b
  | .neg a => "-" ++ render a
  | .brackets a => "(" ++ render a ++ ")"
  | _ => ""

/-- The token string of a pure-arithmetic parse tree. -/
def tokRender : Expr → List Tok
  | .number n => [.num n]
  | .add a b => tokRender a ++ .plus :: tokRender b
  | .sub a b => tokRender a ++ .minus :: tokRender b
  | .mul a b => tokRender a ++ .star :: tokRender b
  | .div a b => tokRender a ++ .slash :: tokRender b
  | .neg a => .minus :: tokRender a
  | .brackets a => .lparen :: tokRender a ++ [.rparen]
  | _ => []

/-- Shapes of parse trees the grammar can produce, by precedence level:
level 0 = `atom`, level 1 = `product`, level 2 = `sum`, restricted to the
pure-arithmetic fragment (no dice term, no variable).  `atomProduct` and
`productSum` are the unit productions. -/
inductive Gram : Nat → Expr → Prop where
  | number (n : Nat) : Gram 0 (.number n)
  | neg {a : Expr} : Gram 0 a → Gram 0 (.neg a)
  | brackets {s : Expr} : Gram 2 s → Gram 0 (.brackets s)
  | atomProduct {e : Expr} : Gram 0 e → Gram 1 e
  | mul {a b : Expr} : Gram 1 a → Gram 0 b → Gram 1 (.mul a b)
  | div {a b : Expr} : Gram 1 a → Gram 0 b → Gram 1 (.div a b)
  | productSum {e : Expr} : Gram 1 e → Gram 2 e
  | add {a b : Expr} : Gram 2 a → Gram 1 b → Gram 2 (.add a b)
  | sub {a b : Expr} : Gram 2 a → Gram 1 b → Gram 2 (.sub a b)

/-- Token lists on which the `product` loop stops (no leading `*` or `/`). -/
def ProdStop : List Tok → Prop
  | .star :: _ => False
  | .slash :: _ => False
  | _ => True

/-- Token lists on which the `sum` loop stops (no leading `+` or `-`). -/
def SumStop : List Tok → Prop
  | .plus :: _ => False
  | .minus :: _ => False
  | _ => True

/-- Character lists that do not start with a digit (so a digit run ends
before them). -/
def HeadNotDigit : List Char → Prop
  | [] => True
  | c :: _ => c.isDigit = false

/-- Character lists that may legally follow a rendered subexpression:
nothing, a space, or a closing parenthesis. -/
def RC : List Char → Prop
  | [] => True
  | c :: _ => c = ' ' ∨ c = ')'

/-- The parser-correctness statement, by grammar level: the tokens of a
grammar-shaped tree followed by `rest` parse to the tree's value, leaving
`rest`; at the loop levels the statement is phrased compositionally via
the reduction loops. -/
def ParseGood : Nat → Expr → Prop
  | 0, e => ∀ v : Int, valE e = some v →
      ∀ rest : List Tok, parseAtom (tokRender e ++ rest) = some (v, rest)
  | 1, e => ∀ v : Int, valE e = some v →
      ∀ rest : List Tok, parseProduct (tokRender e ++ rest) = prodLoop v rest
  | _, e => ∀ v : Int, valE e = some v →
      ∀ rest : List Tok, ProdStop rest → parseSum (tokRender e ++ rest) = sumLoop v rest

/-- Reading a freshly appended heap cell. -/
theorem getD_last_append (l : List InternalParseResult) (r d : InternalParseResult) :
    (l ++ [r]).getD l.length d = r := by
  rw [List.getD_append_right _ _ _ _ (le_refl _)]
  simp

/-- Reading past an extended heap prefix. -/
theorem getD_append_add (l ms : List InternalParseResult) (d : InternalParseResult)
    (k : Nat) : (l ++ ms).getD (l.length + k) d = ms.getD k d := by
  rw [List.getD_append_right _ _ _ _ (Nat.le_add_right _ _)]
  simp

/-- Reading the first cell after a heap prefix. -/
theorem getD_append_self (l ms : List InternalParseResult) (d : InternalParseResult) :
    (l ++ ms).getD l.length d = ms.getD 0 d := by
  rw [List.getD_append_right _ _ _ _ (le_refl _)]
  simp

/-- Reading a freshly appended heap cell, index given up to an equality. -/
theorem getD_last_append' (l : List InternalParseResult) (r d : InternalParseResult) (k : Nat)
    (hk : k = l.length) : (l ++ [r]).getD k d = r := by
  subst hk
  exact getD_last_append l r d

/-- Reading back an in-place heap update. -/
theorem getD_set_self (l : List InternalParseResult) (i : Nat) (a d : InternalParseResult)
    (h : i < l.length) : (l.set i a).getD i d = a := by
  simp [List.getD]
  rw [List.getElem?_set_self]
  · simp
  · omega

/-- A dict lookup right after the corresponding update. -/
theorem lookupVar_updateVar (vs : List (String × Nat)) (name : String) (a : Nat) :
    lookupVar (updateVar vs name a) name = some a := by
  induction vs with
  | nil => simp [updateVar, lookupVar]
  | cons p rest ih =>
      obtain ⟨k, w⟩ := p
      by_cases h : k = name
      · simp [updateVar, h, lookupVar]
      · simp [updateVar, h, lookupVar, ih]

theorem parseAtom_num (n : Nat) (ts : List Tok) :
    parseAtom (.num n :: ts) = some ((n : Int), ts) := by
  simp [parseAtom, parseAtomT]

theorem parseAtom_minus (ts : List Tok) :
    parseAtom (.minus :: ts) = (parseAtom ts).map (fun p => (-p.1, p.2)) := by
  simp only [parseAtom, parseAtomT]
  cases h : parseAtomT ts with
  | none => simp
  | some p =>
      obtain ⟨v, ⟨r, hr⟩⟩ := p
      simp

theorem parseAtom_lparen (ts : List Tok) :
    parseAtom (.lparen :: ts) =
      (parseSum ts).bind
        (fun p => match p.2 with | .rparen :: r => some (p.1, r) | _ => none) := by
  simp only [parseAtom, parseSum, parseAtomT]
  cases h : parseSumT ts with
  | none => simp
  | some p =>
      obtain ⟨v, ⟨r, hr⟩⟩ := p
      cases r with
      | nil => simp
      | cons t r' => cases t <;> simp

theorem parseProduct_eq (ts : List Tok) :
    parseProduct ts = (parseAtom ts).bind (fun p => prodLoop p.1 p.2) := by
  simp only [parseProduct, parseAtom, prodLoop, parseProductT]
  cases h : parseAtomT ts with
  | none => simp
  | some p =>
      obtain ⟨v, ⟨r, hr⟩⟩ := p
      cases h2 : prodLoopT v r with
      | none => simp [h2]
      | some q =>
          obtain ⟨w, ⟨r2, hr2⟩⟩ := q
          simp [h2]

theorem parseSum_eq (ts : List Tok) :
    parseSum ts = (parseProduct ts).bind (fun p => sumLoop p.1 p.2) := by
  simp only [parseSum, parseProduct, sumLoop, parseSumT]
  cases h : parseProductT ts with
  | none => simp
  | some p =>
      obtain ⟨v, ⟨r, hr⟩⟩ := p
      cases h2 : sumLoopT v r with
      | none => simp [h2]
      | some q =>
          obtain ⟨w, ⟨r2, hr2⟩⟩ := q
          simp [h2]

theorem prodLoop_star (v : Int) (ts : List Tok) :
    prodLoop v (.star :: ts) = (parseAtom ts).bind (fun p => prodLoop (v * p.1) p.2) := by
  simp only [prodLoop, parseAtom, prodLoopT]
  cases h : parseAtomT ts with
  | none => simp
  | some p =>
      obtain ⟨w, ⟨r, hr⟩⟩ := p
      cases h2 : prodLoopT (v * w) r with
      | none => simp [h2]
      | some q =>
          obtain ⟨u, ⟨r2, hr2⟩⟩ := q
          simp [h2]

theorem prodLoop_slash (v : Int) (ts : List Tok) :
    prodLoop v (.slash :: ts) =
      (parseAtom ts).bind
        (fun p => if p.1 = 0 then none else prodLoop (Int.fdiv v p.1) p.2) := by
  simp only [prodLoop, parseAtom, prodLoopT]
  cases h : parseAtomT ts with
  | none => simp
  | some p =>
      obtain ⟨w, ⟨r, hr⟩⟩ := p
      by_cases hw : w = 0
      · simp [hw]
      · cases h2 : prodLoopT (Int.fdiv v w) r with
        | none => simp [h2, hw]
        | some q =>
            obtain ⟨u, ⟨r2, hr2⟩⟩ := q
            simp [h2, hw]

theorem prodLoop_stop (v : Int) (ts : List Tok) (h : ProdStop ts) :
    prodLoop v ts = some (v, ts) := by
  cases ts with
  | nil => simp [prodLoop, prodLoopT]
  | cons t ts' =>
      cases t <;> simp [prodLoop, prodLoopT] <;> simp [ProdStop] at h

theorem sumLoop_plus (v : Int) (ts : List Tok) :
    sumLoop v (.plus :: ts) = (parseProduct ts).bind (fun p => sumLoop (v + p.1) p.2) := by
  simp only [sumLoop, parseProduct, sumLoopT]
  cases h : parseProductT ts with
  | none => simp
  | some p =>
      obtain ⟨w, ⟨r, hr⟩⟩ := p
      cases h2 : sumLoopT (v + w) r with
      | none => simp [h2]
      | some q =>
          obtain ⟨u, ⟨r2, hr2⟩⟩ := q
          simp [h2]

theorem sumLoop_minus (v : Int) (ts : List Tok) :
    sumLoop v (.minus :: ts) = (parseProduct ts).bind (fun p => sumLoop (v - p.1) p.2) := by
  simp only [sumLoop, parseProduct, sumLoopT]
  cases h : parseProductT ts with
  | none => simp
  | some p =>
      obtain ⟨w, ⟨r, hr⟩⟩ := p
      cases h2 : sumLoopT (v - w) r with
      | none => simp [h2]
      | some q =>
          obtain ⟨u, ⟨r2, hr2⟩⟩ := q
          simp [h2]

theorem sumLoop_stop (v : Int) (ts : List Tok) (h : SumStop ts) :
    sumLoop v ts = some (v, ts) := by
  cases ts with
  | nil => simp [sumLoop, sumLoopT]
  | cons t ts' =>
      cases t <;> simp [sumLoop, sumLoopT] <;> simp [SumStop] at h

/-- Parser correctness on grammar-shaped trees, by induction over the
grammar derivation. -/
theorem parseGram : ∀ (lvl : Nat) (e : Expr), Gram lvl e → ParseGood lvl e := by
  intro lvl e h
  induction h with
  | number n =>
      intro v hv rest
      simp only [valE, Option.some.injEq] at hv
      subst hv
      simp [tokRender, parseAtom_num]
  | @neg a ha ih =>
      intro v hv rest
      simp only [valE] at hv
      cases hva : valE a with
      | none => simp [hva] at hv
      | some w =>
          rw [hva] at hv
          have hv' : v = -w := by simpa using hv.symm
          subst hv'
          simp only [tokRender, List.cons_append]
          rw [parseAtom_minus, ih w hva rest]
          simp
  | @brackets s hs ih =>
      intro v hv rest
      simp only [valE] at hv
      simp only [tokRender, List.cons_append, List.append_assoc, List.singleton_append,
        List.nil_append]
      rw [parseAtom_lparen, ih v hv (.rparen :: rest) (by exact trivial), sumLoop_stop _ _ (by exact trivial)]
      try simp
  | @atomProduct e he ih =>
      intro v hv rest
      rw [parseProduct_eq, ih v hv rest]
      try simp
  | @mul a b ha hb ih1 ih2 =>
      intro v hv rest
      simp only [valE] at hv
      cases hva : valE a with
      | none => simp [hva] at hv
      | some va =>
          cases hvb : valE b with
          | none => simp [hva, hvb] at hv
          | some vb =>
              simp only [hva, hvb] at hv
              have hv' : v = va * vb := by simpa using hv.symm
              subst hv'
              simp only [tokRender, List.append_assoc, List.cons_append]
              rw [ih1 va hva (.star :: (tokRender b ++ rest)), prodLoop_star, ih2 vb hvb rest]
              try simp
  | @div a b ha hb ih1 ih2 =>
      intro v hv rest
      simp only [valE] at hv
      cases hva : valE a with
      | none => simp [hva] at hv
      | some va =>
          cases hvb : valE b with
          | none => simp [hva, hvb] at hv
          | some vb =>
              simp only [hva, hvb, Option.some_bind] at hv
              by_cases hvb0 : vb = 0
              · simp [hvb0] at hv
              · rw [if_neg hvb0] at hv
                have hv' : v = Int.fdiv va vb := by simpa using hv.symm
                subst hv'
                simp only [tokRender, List.append_assoc, List.cons_append]
                rw [ih1 va hva (.slash :: (tokRender b ++ rest)), prodLoop_slash,
                  ih2 vb hvb rest]
                try simp [hvb0]
  | @productSum e he ih =>
      intro v hv rest hstop
      rw [parseSum_eq, ih v hv rest, prodLoop_stop v rest hstop]
      try simp
  | @add a b ha hb ih1 ih2 =>
      intro v hv rest hstop
      simp only [valE] at hv
      cases hva : valE a with
      | none => simp [hva] at hv
      | some va =>
          cases hvb : valE b with
          | none => simp [hva, hvb] at hv
          | some vb =>
              simp only [hva, hvb] at hv
              have hv' : v = va + vb := by simpa using hv.symm
              subst hv'
              simp only [tokRender, List.append_assoc, List.cons_append]
              rw [ih1 va hva (.plus :: (tokRender b ++ rest)) (by exact trivial), sumLoop_plus,
                ih2 vb hvb rest, prodLoop_stop vb rest hstop]
              try simp
  | @sub a b ha hb ih1 ih2 =>
      intro v hv rest hstop
      simp only [valE] at hv
      cases hva : valE a with
      | none => simp [hva] at hv
      | some va =>
          cases hvb : valE b with
          | none => simp [hva, hvb] at hv
          | some vb =>
              simp only [hva, hvb] at hv
              have hv' : v = va - vb := by simpa using hv.symm
              subst hv'
              simp only [tokRender, List.append_assoc, List.cons_append]
              rw [ih1 va hva (.minus :: (tokRender b ++ rest)) (by exact trivial), sumLoop_minus,
                ih2 vb hvb rest, prodLoop_stop vb rest hstop]
              try simp

/-- Decimal digit characters are digits, have the expected value, and are
not spaces. -/
theorem digitChar_facts : ∀ n : Nat, n < 10 →
    (Char.ofNat (48 + n)).isDigit = true ∧ charVal (Char.ofNat (48 + n)) = n ∧
      ¬(Char.ofNat (48 + n) = ' ') := by
  intro n hn
  interval_cases n <;> exact ⟨by decide, by decide, by decide⟩

/-- A rendered numeral is a nonempty string of digits. -/
theorem natDigitsAux_facts : ∀ (fuel n : Nat), n < fuel →
    natDigitsAux fuel n ≠ [] ∧ ∀ c ∈ natDigitsAux fuel n, c.isDigit = true := by
  intro fuel
  induction fuel with
  | zero => intro n hn; omega
  | succ fuel ih =>
      intro n _hn
      by_cases h10 : n < 10
      · have hc := digitChar_facts n h10
        simp [natDigitsAux, h10, hc.1]
      · have hrec := ih (n / 10) (by omega)
        have hc := digitChar_facts (n % 10) (Nat.mod_lt _ (by omega))
        simp only [natDigitsAux, h10, ite_false]
        constructor
        · simp
        · intro c hc'
          rw [List.mem_append] at hc'
          rcases hc' with h | h
          · exact hrec.2 c h
          · simp only [List.mem_singleton] at h
            subst h
            exact hc.1

/-- Lexing a rendered numeral consumes exactly its digits and recovers its
value. -/
theorem takeDigitsParse_run : ∀ (fuel n acc : Nat) (rest : List Char), n < fuel →
    takeDigitsParse (natDigitsAux fuel n ++ rest) acc =
      takeDigitsParse rest (acc * 10 ^ (natDigitsAux fuel n).length + n) := by
  intro fuel
  induction fuel with
  | zero => intro n acc rest hn; omega
  | succ fuel ih =>
      intro n acc rest _hn
      by_cases h10 : n < 10
      · have hc := digitChar_facts n h10
        simp only [natDigitsAux, h10, ite_true, List.singleton_append, List.length_cons,
          List.length_nil, takeDigitsParse, hc.1, hc.2.1, ite_true]
        norm_num
      · have hc := digitChar_facts (n % 10) (Nat.mod_lt _ (by omega))
        simp only [natDigitsAux, h10, ite_false, List.append_assoc, List.singleton_append]
        rw [ih (n / 10) acc _ (by omega)]
        simp only [takeDigitsParse, hc.1, hc.2.1, ite_true]
        have harith :
            (acc * 10 ^ (natDigitsAux fuel (n / 10)).length + n / 10) * 10 + n % 10 =
              acc * 10 ^ ((natDigitsAux fuel (n / 10)).length + 1) + n := by
          calc (acc * 10 ^ (natDigitsAux fuel (n / 10)).length + n / 10) * 10 + n % 10
              = acc * (10 ^ (natDigitsAux fuel (n / 10)).length * 10) +
                  (n / 10 * 10 + n % 10) := by ring
            _ = acc * 10 ^ ((natDigitsAux fuel (n / 10)).length + 1) + n := by
                rw [pow_succ]
                congr 1
                omega
        rw [harith]
        congr 1
        simp

/-- A digit run ends at a non-digit. -/
theorem takeDigitsParse_stop (rest : List Char) (acc : Nat) (h : HeadNotDigit rest) :
    takeDigitsParse rest acc = (acc, rest) := by
  cases rest with
  | nil => simp [takeDigitsParse]
  | cons c cs => simp [takeDigitsParse, HeadNotDigit] at h ⊢; simp [h]

/-- Legal follow-characters are not digits. -/
theorem RC.toHeadNotDigit {rest : List Char} (h : RC rest) : HeadNotDigit rest := by
  cases rest with
  | nil => exact trivial
  | cons c cs =>
      simp only [RC] at h
      rcases h with h | h <;> subst h <;> simp [HeadNotDigit]

/-- The lexer is compositional over rendered subexpressions: lexing
`render e ++ rest` yields `tokRender e` followed by the tokens of `rest`. -/
theorem tokenizeGram : ∀ (lvl : Nat) (e : Expr), Gram lvl e → ∀ rest : List Char, RC rest →
    tokenize ((render e).data ++ rest) = (tokenize rest).map (fun ts => tokRender e ++ ts) := by
  intro lvl e h
  induction h with
  | number n =>
      intro rest hrc
      have hne := natDigitsAux_facts (n + 1) n (Nat.lt_succ_self n)
      have hdata : (render (.number n)).data = natDigitsAux (n + 1) n := rfl
      rw [hdata]
      cases hds : natDigitsAux (n + 1) n with
      | nil => exact absurd hds hne.1
      | cons c t =>
          have hcdig : c.isDigit = true := by
            apply hne.2
            rw [hds]
            exact List.mem_cons_self _ _
          have hcsp : ¬(c = ' ') := by
            intro hcontra
            rw [hcontra] at hcdig
            exact absurd hcdig (by decide)
          have hrun := takeDigitsParse_run (n + 1) n 0 rest (Nat.lt_succ_self n)
          rw [hds, takeDigitsParse_stop rest _ hrc.toHeadNotDigit] at hrun
          simp only [List.cons_append, takeDigitsParse, hcdig, ite_true, Nat.zero_mul,
            Nat.zero_add, List.append_eq] at hrun
          simp only [List.cons_append]
          rw [tokenize, if_neg hcsp, if_pos hcdig, hrun]
          simp [tokRender]
  | @neg a ha ih =>
      intro rest hrc
      have hsp : ("-" ++ render a).data = '-' :: (render a).data := by
        rw [String.data_append]
        rfl
      show tokenize (("-" ++ render a).data ++ rest) = _
      rw [hsp]
      simp only [List.cons_append]
      rw [tokenize, if_neg (by decide), if_neg (by decide), if_neg (by decide), if_pos rfl,
        ih rest hrc]
      cases tokenize rest <;> simp [tokRender]
  | @brackets s hs ih =>
      intro rest hrc
      show tokenize (("(" ++ render s ++ ")").data ++ rest) = _
      have hsplit : ("(" ++ render s ++ ")").data ++ rest =
          '(' :: ((render s).data ++ (')' :: rest)) := by
        rw [String.data_append, String.data_append]
        simp
      rw [hsplit, tokenize, if_neg (by decide), if_neg (by decide), if_neg (by decide),
        if_neg (by decide), if_neg (by decide), if_neg (by decide), if_pos rfl,
        ih (')' :: rest) (Or.inr rfl)]
      rw [tokenize, if_neg (by decide), if_neg (by decide), if_neg (by decide),
        if_neg (by decide), if_neg (by decide), if_neg (by decide), if_neg (by decide),
        if_pos rfl]
      cases tokenize rest <;> simp [tokRender]
  | @atomProduct e he ih => exact ih
  | @mul a b ha hb ih1 ih2 =>
      intro rest hrc
      show tokenize ((render a ++ " * " ++ render b).data ++ rest) = _
      have hsplit : (render a ++ " * " ++ render b).data ++ rest =
          (render a).data ++ (' ' :: '*' :: ' ' :: ((render b).data ++ rest)) := by
        rw [String.data_append, String.data_append]
        simp
      rw [hsplit, ih1 (' ' :: '*' :: ' ' :: ((render b).data ++ rest)) (Or.inl rfl)]
      rw [tokenize, if_pos rfl]
      rw [tokenize, if_neg (by decide), if_neg (by decide), if_neg (by decide),
        if_neg (by decide), if_pos rfl]
      rw [tokenize, if_pos rfl]
      rw [ih2 rest hrc]
      cases tokenize rest <;> simp [tokRender]
  | @div a b ha hb ih1 ih2 =>
      intro rest hrc
      show tokenize ((render a ++ " / " ++ render b).data ++ rest) = _
      have hsplit : (render a ++ " / " ++ render b).data ++ rest =
          (render a).data ++ (' ' :: '/' :: ' ' :: ((render b).data ++ rest)) := by
        rw [String.data_append, String.data_append]
        simp
      rw [hsplit, ih1 (' ' :: '/' :: ' ' :: ((render b).data ++ rest)) (Or.inl rfl)]
      rw [tokenize, if_pos rfl]
      rw [tokenize, if_neg (by decide), if_neg (by decide), if_neg (by decide),
        if_neg (by decide), if_neg (by decide), if_pos rfl]
      rw [tokenize, if_pos rfl]
      rw [ih2 rest hrc]
      cases tokenize rest <;> simp [tokRender]
  | @productSum e he ih => exact ih
  | @add a b ha hb ih1 ih2 =>
      intro rest hrc
      show tokenize ((render a ++ " + " ++ render b).data ++ rest) = _
      have hsplit : (render a ++ " + " ++ render b).data ++ rest =
          (render a).data ++ (' ' :: '+' :: ' ' :: ((render b).data ++ rest)) := by
        rw [String.data_append, String.data_append]
        simp
      rw [hsplit, ih1 (' ' :: '+' :: ' ' :: ((render b).data ++ rest)) (Or.inl rfl)]
      rw [tokenize, if_pos rfl]
      rw [tokenize, if_neg (by decide), if_neg (by decide), if_pos rfl]
      rw [tokenize, if_pos rfl]
      rw [ih2 rest hrc]
      cases tokenize rest <;> simp [tokRender]
  | @sub a b ha hb ih1 ih2 =>
      intro rest hrc
      show tokenize ((render a ++ " - " ++ render b).data ++ rest) = _
      have hsplit : (render a ++ " - " ++ render b).data ++ rest =
          (render a).data ++ (' ' :: '-' :: ' ' :: ((render b).data ++ rest)) := by
        rw [String.data_append, String.data_append]
        simp
      rw [hsplit, ih1 (' ' :: '-' :: ' ' :: ((render b).data ++ rest)) (Or.inl rfl)]
      rw [tokenize, if_pos rfl]
      rw [tokenize, if_neg (by decide), if_neg (by decide), if_neg (by decide), if_pos rfl]
      rw [tokenize, if_pos rfl]
      rw [ih2 rest hrc]
      cases tokenize rest <;> simp [tokRender]

/-- Evaluating a pure-arithmetic tree only appends fresh nodes to the heap
and produces a node holding the tree's value and its rendered text. -/
theorem evalArith (gen : Nat → Int) : ∀ (lvl : Nat) (e : Expr), Gram lvl e →
    ∀ (st : EvalState) (i : Nat) (st' : EvalState),
      evalExpr gen e st = .ok (i, st') →
      ∃ (v : Int) (ext : List InternalParseResult),
        valE e = some v ∧
        st'.heap = st.heap ++ ext ∧
        i < st'.heap.length ∧
        heapGet st' i = ⟨.int v, some (render e), none⟩ := by
  intro lvl e h
  induction h with
  | number n =>
      intro st i st' he
      simp only [evalExpr, alloc, Except.ok.injEq, Prod.mk.injEq] at he
      obtain ⟨h1, h2⟩ := he
      subst h1
      subst h2
      refine ⟨n, [⟨.int n, some (natRepr n), none⟩], by simp [valE], by simp, by simp, ?_⟩
      simp only [heapGet]
      rw [getD_last_append]
      simp [render]
  | @neg a ha ih =>
      intro st i st' he
      simp only [evalExpr] at he
      cases hea : evalExpr gen a st with
      | error err => simp [hea] at he
      | ok p =>
          obtain ⟨ia, sta⟩ := p
          simp only [hea] at he
          obtain ⟨va, exta, hva, hheapa, hia, hnodea⟩ := ih st ia sta hea
          rw [hnodea] at he
          simp only [negResult, fmtOpt, alloc, Except.ok.injEq, Prod.mk.injEq] at he
          obtain ⟨h1, h2⟩ := he
          subst h1
          subst h2
          refine ⟨-va, exta ++ [⟨.int (-va), some ("-" ++ render a), none⟩],
            by simp [valE, hva], by simp [hheapa], by simp, ?_⟩
          simp only [heapGet]
          rw [getD_last_append]
          simp [render]
  | @brackets s hs ih =>
      intro st i st' he
      simp only [evalExpr] at he
      cases hes : evalExpr gen s st with
      | error err => simp [hes] at he
      | ok p =>
          obtain ⟨is_, sts⟩ := p
          simp only [hes] at he
          obtain ⟨vs, exts, hvs, hheaps, his, hnodes⟩ := ih st is_ sts hes
          rw [hnodes] at he
          simp only [fmtOpt, alloc, Except.ok.injEq, Prod.mk.injEq] at he
          obtain ⟨h1, h2⟩ := he
          subst h1
          subst h2
          refine ⟨vs, exts ++ [⟨.int vs, some ("(" ++ render s ++ ")"), none⟩],
            by simp [valE, hvs], by simp [hheaps], by simp, ?_⟩
          simp only [heapGet]
          rw [getD_last_append]
          simp [render]
  | @atomProduct e he' ih => exact ih
  | @mul a b ha hb ih1 ih2 =>
      intro st i st' he
      simp only [evalExpr] at he
      cases hea : evalExpr gen a st with
      | error err => simp [hea] at he
      | ok p =>
          obtain ⟨ia, sta⟩ := p
          simp only [hea] at he
          cases heb : evalExpr gen b sta with
          | error err => simp [heb] at he
          | ok q =>
              obtain ⟨ib, stb⟩ := q
              simp only [heb] at he
              obtain ⟨va, exta, hva, hheapa, hia, hnodea⟩ := ih1 st ia sta hea
              obtain ⟨vb, extb, hvb, hheapb, hib, hnodeb⟩ := ih2 sta ib stb heb
              have hnode1b : heapGet stb ia = ⟨.int va, some (render a), none⟩ := by
                simp only [heapGet, hheapb]
                rw [List.getD_append _ _ _ _ hia]
                exact hnodea
              rw [hnode1b, hnodeb] at he
              simp only [opResult, fmtOpt, Except.map, alloc, Except.ok.injEq,
                Prod.mk.injEq] at he
              obtain ⟨h1, h2⟩ := he
              subst h1
              subst h2
              refine ⟨va * vb,
                exta ++ extb ++ [⟨.int (va * vb), some (render a ++ " * " ++ render b), none⟩],
                by simp [valE, hva, hvb], by simp [hheapa, hheapb], by simp, ?_⟩
              simp only [heapGet]
              rw [getD_last_append]
              simp [render]
  | @div a b ha hb ih1 ih2 =>
      intro st i st' he
      simp only [evalExpr] at he
      cases hea : evalExpr gen a st with
      | error err => simp [hea] at he
      | ok p =>
          obtain ⟨ia, sta⟩ := p
          simp only [hea] at he
          cases heb : evalExpr gen b sta with
          | error err => simp [heb] at he
          | ok q =>
              obtain ⟨ib, stb⟩ := q
              simp only [heb] at he
              obtain ⟨va, exta, hva, hheapa, hia, hnodea⟩ := ih1 st ia sta hea
              obtain ⟨vb, extb, hvb, hheapb, hib, hnodeb⟩ := ih2 sta ib stb heb
              have hnode1b : heapGet stb ia = ⟨.int va, some (render a), none⟩ := by
                simp only [heapGet, hheapb]
                rw [List.getD_append _ _ _ _ hia]
                exact hnodea
              rw [hnode1b, hnodeb] at he
              by_cases hvb0 : vb = 0
              · rw [hvb0] at he
                simp [opResult, Except.map] at he
              · simp only [opResult, fmtOpt, Except.map, if_neg hvb0, alloc,
                  Except.ok.injEq, Prod.mk.injEq] at he
                obtain ⟨h1, h2⟩ := he
                subst h1
                subst h2
                refine ⟨Int.fdiv va vb,
                  exta ++ extb ++
                    [⟨.int (Int.fdiv va vb), some (render a ++ " / " ++ render b), none⟩],
                  ?_, by simp [hheapa, hheapb], by simp, ?_⟩
                · simp [valE, hva, hvb, hvb0]
                · simp only [heapGet]
                  rw [getD_last_append]
                  simp [render]
  | @productSum e he' ih => exact ih
  | @add a b ha hb ih1 ih2 =>
      intro st i st' he
      simp only [evalExpr] at he
      cases hea : evalExpr gen a st with
      | error err => simp [hea] at he
      | ok p =>
          obtain ⟨ia, sta⟩ := p
          simp only [hea] at he
          cases heb : evalExpr gen b sta with
          | error err => simp [heb] at he
          | ok q =>
              obtain ⟨ib, stb⟩ := q
              simp only [heb] at he
              obtain ⟨va, exta, hva, hheapa, hia, hnodea⟩ := ih1 st ia sta hea
              obtain ⟨vb, extb, hvb, hheapb, hib, hnodeb⟩ := ih2 sta ib stb heb
              have hnode1b : heapGet stb ia = ⟨.int va, some (render a), none⟩ := by
                simp only [heapGet, hheapb]
                rw [List.getD_append _ _ _ _ hia]
                exact hnodea
              rw [hnode1b, hnodeb] at he
              simp only [opResult, fmtOpt, Except.map, alloc, Except.ok.injEq,
                Prod.mk.injEq] at he
              obtain ⟨h1, h2⟩ := he
              subst h1
              subst h2
              refine ⟨va + vb,
                exta ++ extb ++ [⟨.int (va + vb), some (render a ++ " + " ++ render b), none⟩],
                by simp [valE, hva, hvb], by simp [hheapa, hheapb], by simp, ?_⟩
              simp only [heapGet]
              rw [getD_last_append]
              simp [render]
  | @sub a b ha hb ih1 ih2 =>
      intro st i st' he
      simp only [evalExpr] at he
      cases hea : evalExpr gen a st with
      | error err => simp [hea] at he
      | ok p =>
          obtain ⟨ia, sta⟩ := p
          simp only [hea] at he
          cases heb : evalExpr gen b sta with
          | error err => simp [heb] at he
          | ok q =>
              obtain ⟨ib, stb⟩ := q
              simp only [heb] at he
              obtain ⟨va, exta, hva, hheapa, hia, hnodea⟩ := ih1 st ia sta hea
              obtain ⟨vb, extb, hvb, hheapb, hib, hnodeb⟩ := ih2 sta ib stb heb
              have hnode1b : heapGet stb ia = ⟨.int va, some (render a), none⟩ := by
                simp only [heapGet, hheapb]
                rw [List.getD_append _ _ _ _ hia]
                exact hnodea
              rw [hnode1b, hnodeb] at he
              simp only [opResult, fmtOpt, Except.map, alloc, Except.ok.injEq,
                Prod.mk.injEq] at he
              obtain ⟨h1, h2⟩ := he
              subst h1
              subst h2
              refine ⟨va - vb,
                exta ++ extb ++ [⟨.int (va - vb), some (render a ++ " - " ++ render b), none⟩],
                by simp [valE, hva, hvb], by simp [hheapa, hheapb], by simp, ?_⟩
              simp only [heapGet]
              rw [getD_last_append]
              simp [render]

/-- The keep-highest selection (ascending sort, drop all but the top
`count`) sums to the `k` largest outcomes. -/
theorem highest_getActualDice_sum (dice : List Int) (k : Int) :
    ((DiceModifier.highest k).getActualDice dice).1.sum = kLargestSum k dice := by
  haveI instTot : IsTotal Int (fun a b => b ≤ a) := ⟨fun a b => le_total b a⟩
  haveI instTrans : IsTrans Int (fun a b => b ≤ a) := ⟨fun a b c h1 h2 => le_trans h2 h1⟩
  haveI instAnti : IsAntisymm Int (fun a b => b ≤ a) := ⟨fun a b h1 h2 => le_antisymm h2 h1⟩
  have hS1 : List.Sorted (fun a b => b ≤ a) (dice.insertionSort (fun a b => b ≤ a)) :=
    List.sorted_insertionSort _ _
  have hS2 : List.Sorted (· ≤ ·) (dice.insertionSort (· ≤ ·)) :=
    List.sorted_insertionSort _ _
  have hrev : List.Sorted (fun a b => b ≤ a) (dice.insertionSort (· ≤ ·)).reverse :=
    List.pairwise_reverse.mpr hS2
  have hperm : List.Perm (dice.insertionSort (fun a b => b ≤ a)) (dice.insertionSort (· ≤ ·)).reverse :=
    ((List.perm_insertionSort _ _).trans (List.perm_insertionSort (· ≤ ·) dice).symm).trans
      (List.reverse_perm _).symm
  have heq : dice.insertionSort (fun a b => b ≤ a) = (dice.insertionSort (· ≤ ·)).reverse :=
    List.eq_of_perm_of_sorted hperm hS1 hrev
  simp only [DiceModifier.getActualDice, kLargestSum, heq, List.take_reverse, List.sum_reverse]

/-- The keep-lowest selection sums to the `k` smallest outcomes. -/
theorem lowest_getActualDice_sum (dice : List Int) (k : Int) :
    ((DiceModifier.lowest k).getActualDice dice).1.sum = kSmallestSum k dice := by
  simp [DiceModifier.getActualDice, kSmallestSum]

/-- C1 (counterexample): the claim says a variable bound by an assignment
in one `parse` call is not visible to, and does not affect, any later
`parse` call; but the `DiceTransformer` — and with it `vars` — is created
once in `DiceParser.__init__` and reused by every `parse` call, so after
parsing `"x = 5"` a later `parse` call evaluating `"x"` on the same
instance succeeds with value 5 instead of failing as unbound. -/
theorem c1_counterexample :
    DiceParser.parse constGen initState (.assignVar "x" (.number 5)) =
      .ok (⟨5, "x = 5"⟩,
        ⟨[⟨.int 5, some "5", none⟩, ⟨.int 5, some "x", none⟩, ⟨.int 5, some "x = 5", none⟩],
         [("x", 1)], 0⟩) ∧
    DiceParser.parse constGen
        ⟨[⟨.int 5, some "5", none⟩, ⟨.int 5, some "x", none⟩, ⟨.int 5, some "x = 5", none⟩],
         [("x", 1)], 0⟩ (.var "x") =
      .ok (⟨5, "x"⟩,
        ⟨[⟨.int 5, some "5", none⟩, ⟨.int 5, some "x", none⟩, ⟨.int 5, some "x = 5", none⟩],
         [("x", 1)], 0⟩) :=
  ⟨rfl, rfl⟩

/-- C1 (amended): each `DiceParser` instance constructs its own Variable
Environment once, at construction time; a binding made by one `parse` call
remains visible to every later `parse` call on the same instance, while a
fresh instance starts with an empty environment, so bindings never cross
instances. -/
theorem c1_env_per_instance :
    (∀ (gen : Nat → Int) (st : EvalState) (name : String) (v : Nat),
      ∃ st' : EvalState,
        DiceParser.parse gen st (.assignVar name (.number v)) =
          .ok (⟨v, name ++ " = " ++ natRepr v⟩, st') ∧
        DiceParser.parse gen st' (.var name) = .ok (⟨v, name⟩, st')) ∧
    (∀ (gen : Nat → Int) (name : String),
      DiceParser.parse gen initState (.var name) = .error (.unboundVariable name)) := by
  constructor
  · intro gen st name v
    refine ⟨(⟨st.heap ++ ([⟨.int v, some (natRepr v), none⟩, ⟨.int v, some name, none⟩,
        ⟨.int v, some (name ++ " = " ++ natRepr v), none⟩] : List InternalParseResult),
      updateVar st.vars name (st.heap.length + 1), st.randIdx⟩ : EvalState), ?_, ?_⟩
    · simp only [DiceParser.parse, evalExpr, alloc, heapGet, fmtOpt, Nat.zero_add, Nat.reduceAdd,
        List.append_assoc, List.singleton_append, List.length_append, List.length_cons,
        List.length_nil, List.length_singleton, getD_last_append, getD_append_self,
        getD_append_add, List.getD_cons_zero, List.getD_cons_succ]
      simp [List.getD]
    · simp only [DiceParser.parse, evalExpr, lookupVar_updateVar, heapGet, getD_append_add,
        List.singleton_append, List.getD_cons_zero, List.getD_cons_succ]
  · intro gen name
    rfl

/-- C2: division is Python-style floor division truncating toward negative
infinity, modelled by `Int.fdiv` (a zero divisor raises, as in Python):
the `div` operator action on integer child values `a` and `b ≠ 0` yields
`Int.fdiv a b`; parsing `"a / b"` with two integer literals yields
`Int.fdiv a b`; parsing `"7 / 2"` yields value 3 and parsing `"-7 / 2"`
yields value -4. -/
theorem c2_floor_division :
    (∀ (a b : Int) (s₁ s₂ f₁ f₂ : Option String), b ≠ 0 →
      opResult (fun x y => if y = 0 then .error .zeroDivision else .ok (Int.fdiv x y)) " / "
        ⟨.int a, s₁, f₁⟩ ⟨.int b, s₂, f₂⟩ =
      .ok ⟨.int (Int.fdiv a b), some (fmtOpt s₁ ++ " / " ++ fmtOpt s₂), none⟩) ∧
    (∀ a b : Int, b ≠ 0 →
      ∃ st' : EvalState, DiceParser.parse constGen initState (.div (intLit a) (intLit b)) =
        .ok (⟨Int.fdiv a b, intRepr a ++ " / " ++ intRepr b⟩, st')) ∧
    DiceParser.parse constGen initState (.div (.number 7) (.number 2)) =
      .ok (⟨3, "7 / 2"⟩,
        ⟨[⟨.int 7, some "7", none⟩, ⟨.int 2, some "2", none⟩, ⟨.int 3, some "7 / 2", none⟩],
         [], 0⟩) ∧
    DiceParser.parse constGen initState (.div (.neg (.number 7)) (.number 2)) =
      .ok (⟨-4, "-7 / 2"⟩,
        ⟨[⟨.int 7, some "7", none⟩, ⟨.int (-7), some "-7", none⟩, ⟨.int 2, some "2", none⟩,
          ⟨.int (-4), some "-7 / 2", none⟩], [], 0⟩) := by
  refine ⟨?_, ?_, rfl, rfl⟩
  · intro a b s₁ s₂ f₁ f₂ hb
    simp [opResult, hb, Except.map]
  · intro a b hb
    by_cases ha : a < 0 <;> by_cases hbneg : b < 0
    · apply Exists.intro
      simp [intLit, intRepr, ha, hbneg, hb, DiceParser.parse, evalExpr, alloc, heapGet,
        negResult, opResult, fmtOpt, Except.map, List.getD, initState,
        Int.toNat_of_nonneg (by omega : (0:Int) ≤ -a), Int.toNat_of_nonneg (by omega : (0:Int) ≤ -b)]
      rfl
    · apply Exists.intro
      simp [intLit, intRepr, ha, hbneg, hb, DiceParser.parse, evalExpr, alloc, heapGet,
        negResult, opResult, fmtOpt, Except.map, List.getD, initState,
        Int.toNat_of_nonneg (by omega : (0:Int) ≤ -a), Int.toNat_of_nonneg (not_lt.mp hbneg)]
      rfl
    · apply Exists.intro
      simp [intLit, intRepr, ha, hbneg, hb, DiceParser.parse, evalExpr, alloc, heapGet,
        negResult, opResult, fmtOpt, Except.map, List.getD, initState,
        Int.toNat_of_nonneg (not_lt.mp ha), Int.toNat_of_nonneg (by omega : (0:Int) ≤ -b)]
      rfl
    · apply Exists.intro
      simp [intLit, intRepr, ha, hbneg, hb, DiceParser.parse, evalExpr, alloc, heapGet,
        negResult, opResult, fmtOpt, Except.map, List.getD, initState,
        Int.toNat_of_nonneg (not_lt.mp ha), Int.toNat_of_nonneg (not_lt.mp hbneg)]
      rfl

/-- Witness for C2 at `a = -7`, `b = 2`. -/
theorem c2_witness :
    ∃ st' : EvalState, DiceParser.parse constGen initState (.div (intLit (-7)) (intLit 2)) =
      .ok (⟨Int.fdiv (-7) 2, intRepr (-7) ++ " / " ++ intRepr 2⟩, st') :=
  c2_floor_division.2.1 (-7) 2 (by decide)

/-- C3: a `var` reference to an identifier never assigned in the current
session fails with the unbound-variable error (Python's `KeyError`) and
produces no value — in particular parsing `"y + 1"` on a fresh parser
fails — it is not silently defaulted to zero. -/
theorem c3_unbound_variable :
    (∀ (gen : Nat → Int) (st : EvalState) (name : String), lookupVar st.vars name = none →
      evalExpr gen (.var name) st = .error (.unboundVariable name)) ∧
    (∀ gen : Nat → Int,
      DiceParser.parse gen initState (.add (.var "y") (.number 1)) =
        .error (.unboundVariable "y")) := by
  constructor
  · intro gen st name h
    simp [evalExpr, h]
  · intro gen
    rfl

/-- Witness for C3 at the unbound name `"y"` on a fresh parser. -/
theorem c3_witness :
    evalExpr constGen (.var "y") initState = .error (.unboundVariable "y") :=
  c3_unbound_variable.1 constGen initState "y" rfl

/-- C4: parsing `"x = 5"` yields value 5 and text `"x = 5"` and binds `x`
to a node holding the child's value 5 and the identifier `"x"` as text; a
later `var` reference returns that stored node, and parsing `"x + 1"` in
the same session yields value 6. -/
theorem c4_variable_round_trip :
    DiceParser.parse constGen initState (.assignVar "x" (.number 5)) =
      .ok (⟨5, "x = 5"⟩,
        ⟨[⟨.int 5, some "5", none⟩, ⟨.int 5, some "x", none⟩, ⟨.int 5, some "x = 5", none⟩],
         [("x", 1)], 0⟩) ∧
    lookupVar [("x", 1)] "x" = some 1 ∧
    heapGet ⟨[⟨.int 5, some "5", none⟩, ⟨.int 5, some "x", none⟩, ⟨.int 5, some "x = 5", none⟩],
      [("x", 1)], 0⟩ 1 = ⟨.int 5, some "x", none⟩ ∧
    evalExpr constGen (.var "x")
        ⟨[⟨.int 5, some "5", none⟩, ⟨.int 5, some "x", none⟩, ⟨.int 5, some "x = 5", none⟩],
         [("x", 1)], 0⟩ =
      .ok (1,
        ⟨[⟨.int 5, some "5", none⟩, ⟨.int 5, some "x", none⟩, ⟨.int 5, some "x = 5", none⟩],
         [("x", 1)], 0⟩) ∧
    DiceParser.parse constGen
        ⟨[⟨.int 5, some "5", none⟩, ⟨.int 5, some "x", none⟩, ⟨.int 5, some "x = 5", none⟩],
         [("x", 1)], 0⟩ (.add (.var "x") (.number 1)) =
      .ok (⟨6, "x + 1"⟩,
        ⟨[⟨.int 5, some "5", none⟩, ⟨.int 5, some "x", none⟩, ⟨.int 5, some "x = 5", none⟩,
          ⟨.int 1, some "1", none⟩, ⟨.int 6, some "x + 1", none⟩],
         [("x", 1)], 0⟩) :=
  ⟨rfl, rfl, rfl, rfl, rfl⟩

/-- C5: for every parse of `"NdM"` with `N ≥ 0` and `M ≥ 1`, given a
random stream drawing from `[1, M]`, the generated outcome list has
exactly `N` entries, each in `[1, M]`, and the parse returns the sum of
the outcomes kept by the (keep-all) modifier, reporting the bracketed
outcome list as text. -/
theorem c5_roll_bounds :
    ∀ (N M : Nat) (gen : Nat → Int), 1 ≤ M → (∀ i, 1 ≤ gen i ∧ gen i ≤ (M : Int)) →
      ((List.range N).map gen).length = N ∧
      (∀ x ∈ (List.range N).map gen, 1 ≤ x ∧ x ≤ (M : Int)) ∧
      ∃ st' : EvalState, DiceParser.parse gen initState (exprNdM N M) =
        .ok (⟨(DiceModifier.null.getActualDice ((List.range N).map gen)).1.sum,
              "[" ++ String.intercalate ", " (((List.range N).map gen).map intRepr) ++ "]"⟩,
          st') := by
  intro N M gen hM hgen
  have hM1 : ¬((M : Int) < 1) := by omega
  have hM2 : (1 : Int) ≤ (M : Int) := by omega
  refine ⟨by simp, ?_, ?_⟩
  · intro x hx
    simp only [List.mem_map, List.mem_range] at hx
    obtain ⟨i, _, rfl⟩ := hx
    exact hgen i
  · apply Exists.intro
    simp [exprNdM, DiceParser.parse, evalExpr, evalOpt, alloc, heapGet, heapSet, initState,
      List.getD, rollScan, DiceRoller.roll, DiceRoller.rolledDice, DiceRoller.consumed,
      DiceModifier.getActualDice, hM1, hM2, Int.toNat_natCast]
    rfl

/-- Witness for C5 at `N = 2`, `M = 6` with the constant stream. -/
theorem c5_witness :
    ((List.range 2).map constGen).length = 2 ∧
    (∀ x ∈ (List.range 2).map constGen, 1 ≤ x ∧ x ≤ (6 : Int)) ∧
    ∃ st' : EvalState, DiceParser.parse constGen initState (exprNdM 2 6) =
      .ok (⟨(DiceModifier.null.getActualDice ((List.range 2).map constGen)).1.sum,
            "[" ++ String.intercalate ", " (((List.range 2).map constGen).map intRepr) ++ "]"⟩,
        st') :=
  c5_roll_bounds 2 6 constGen (by decide) (by intro i; exact ⟨by simp [constGen], by simp [constGen]⟩)

/-- C6: the keep-highest modifier keeps outcomes summing to the `k`
largest of the generated outcomes (`k` clamped to `[0, N]`), keep-lowest
to the `k` smallest, and keep-all keeps every outcome and drops none;
accordingly parsing `"NdMH k"` yields the sum of the `k` largest generated
outcomes and `"NdML k"` the sum of the `k` smallest. -/
theorem c6_keep_modifier_sums :
    (∀ (dice : List Int) (k : Int),
      ((DiceModifier.highest k).getActualDice dice).1.sum = kLargestSum k dice ∧
      ((DiceModifier.lowest k).getActualDice dice).1.sum = kSmallestSum k dice ∧
      DiceModifier.null.getActualDice dice = (dice, [])) ∧
    (∀ (N M k : Nat) (gen : Nat → Int), 1 ≤ M →
      ∃ st' : EvalState, DiceParser.parse gen initState (exprNdMH N M k) =
        .ok (⟨kLargestSum (k : Int) ((List.range N).map gen),
              "[" ++ String.intercalate ", " (((List.range N).map gen).map intRepr) ++ "]"⟩,
          st')) ∧
    (∀ (N M k : Nat) (gen : Nat → Int), 1 ≤ M →
      ∃ st' : EvalState, DiceParser.parse gen initState (exprNdML N M k) =
        .ok (⟨kSmallestSum (k : Int) ((List.range N).map gen),
              "[" ++ String.intercalate ", " (((List.range N).map gen).map intRepr) ++ "]"⟩,
          st')) := by
  refine ⟨fun dice k => ⟨highest_getActualDice_sum dice k, lowest_getActualDice_sum dice k,
    rfl⟩, ?_, ?_⟩
  · intro N M k gen hM
    have hM1 : ¬((M : Int) < 1) := by omega
    have hM2 : (1 : Int) ≤ (M : Int) := by omega
    apply Exists.intro
    rw [← highest_getActualDice_sum]
    simp [exprNdMH, DiceParser.parse, evalExpr, evalOpt, alloc, heapGet, heapSet, initState,
      List.getD, rollScan, DiceRoller.roll, DiceRoller.rolledDice, DiceRoller.consumed,
      hM1, hM2, Int.toNat_natCast]
    rfl
  · intro N M k gen hM
    have hM1 : ¬((M : Int) < 1) := by omega
    have hM2 : (1 : Int) ≤ (M : Int) := by omega
    apply Exists.intro
    rw [← lowest_getActualDice_sum]
    simp [exprNdML, DiceParser.parse, evalExpr, evalOpt, alloc, heapGet, heapSet, initState,
      List.getD, rollScan, DiceRoller.roll, DiceRoller.rolledDice, DiceRoller.consumed,
      hM1, hM2, Int.toNat_natCast]
    rfl

/-- Witness for C6 at `"3d6H 2"` with the constant stream. -/
theorem c6_witness :
    ∃ st' : EvalState, DiceParser.parse constGen initState (exprNdMH 3 6 2) =
      .ok (⟨kLargestSum (2 : Int) ((List.range 3).map constGen),
            "[" ++ String.intercalate ", " (((List.range 3).map constGen).map intRepr) ++ "]"⟩,
        st') :=
  c6_keep_modifier_sums.2.1 3 6 2 constGen (by decide)

/-- C7: the `dice_size` action clamps its value — any size less than 1 is
forced to 0 (in place) — and with size 0 every outcome is 0: parsing
`"3d0"` yields value 0 and the outcome list `[0, 0, 0]`. -/
theorem c7_dice_size_clamp :
    (∀ (gen : Nat → Int) (e : Expr) (st st₁ : EvalState) (i : Nat) (v : Int),
      evalExpr gen e st = .ok (i, st₁) → (heapGet st₁ i).value = .int v →
      i < st₁.heap.length →
      ∃ (j : Nat) (st₂ : EvalState), evalExpr gen (.diceSize e) st = .ok (j, st₂) ∧
        (heapGet st₂ j).value = .int (if v < 1 then 0 else v) ∧
        (heapGet st₂ j).flag = some "dice_size") ∧
    (∀ gen : Nat → Int,
      DiceParser.parse gen initState (exprNdM 3 0) =
        .ok (⟨0, "[0, 0, 0]"⟩,
          ⟨[⟨.int 3, some "3", none⟩, ⟨.int 3, some "3", some "dice_count"⟩,
            ⟨.int 0, some "0", none⟩, ⟨.int 0, some "0", some "dice_size"⟩,
            ⟨.int 0, some "[0, 0, 0]", none⟩], [], 0⟩)) := by
  constructor
  · intro gen e st st₁ i v he hv hi
    by_cases hv1 : v < 1
    · refine ⟨st₁.heap.length,
        ⟨(st₁.heap.set i ⟨.int 0, (heapGet st₁ i).string, (heapGet st₁ i).flag⟩) ++
          [⟨.int 0, (heapGet st₁ i).string, some "dice_size"⟩], st₁.vars, st₁.randIdx⟩,
        ?_, ?_, ?_⟩
      · simp only [evalExpr, he]
        rw [hv]
        simp only [hv1, ite_true, heapSet, alloc, heapGet]
        rw [getD_set_self _ _ _ _ (by simpa using hi)]
        simp [List.length_set]
      · simp only [heapGet]
        rw [getD_last_append' _ _ _ _ (by simp)]
        simp [hv1]
      · simp only [heapGet]
        rw [getD_last_append' _ _ _ _ (by simp)]
    · refine ⟨st₁.heap.length,
        ⟨st₁.heap ++ [⟨.int v, (heapGet st₁ i).string, some "dice_size"⟩],
         st₁.vars, st₁.randIdx⟩, ?_, ?_, ?_⟩
      · simp only [evalExpr, he]
        rw [hv]
        simp only [hv1, ite_false]
        rw [hv]
        simp only [alloc, heapGet]
      · simp only [heapGet]
        rw [getD_last_append' _ _ _ _ rfl]
        simp [hv1]
      · simp only [heapGet]
        rw [getD_last_append' _ _ _ _ rfl]
  · intro gen
    rfl

/-- Witness for C7: `dice_size` applied to the literal 0. -/
theorem c7_witness :
    ∃ (j : Nat) (st₂ : EvalState),
      evalExpr constGen (.diceSize (.number 0)) initState = .ok (j, st₂) ∧
      (heapGet st₂ j).value = .int (if (0 : Int) < 1 then 0 else 0) ∧
      (heapGet st₂ j).flag = some "dice_size" :=
  c7_dice_size_clamp.1 constGen (.number 0) initState
    ⟨[⟨.int 0, some "0", none⟩], [], 0⟩ 0 0 rfl rfl (by decide)

/-- C8: missing `roll` children are defaulted — count 1, size 20, modifier
keep-all — so a bare `"d"` invokes the roller as
`DiceRoller(1, 20, NullDiceModifier())`, which rolls one 20-sided die and
keeps its single outcome. -/
theorem c8_roll_defaults :
    (∀ (gen : Nat → Int) (st : EvalState),
      evalExpr gen (.roll .none .none .none) st =
        .ok (st.heap.length,
          ⟨st.heap ++ [⟨.int ((DiceRoller.mk 1 20 .null).roll gen st.randIdx).1,
            some ("[" ++ String.intercalate ", "
              ((((DiceRoller.mk 1 20 .null).roll gen st.randIdx).2).map intRepr) ++ "]"),
            none⟩], st.vars, st.randIdx + (DiceRoller.mk 1 20 .null).consumed⟩)) ∧
    (∀ (gen : Nat → Int) (start : Nat),
      (DiceRoller.mk 1 20 DiceModifier.null).roll gen start = (gen start, [gen start])) := by
  constructor
  · intro gen st
    rfl
  · intro gen start
    simp [DiceRoller.roll, DiceRoller.rolledDice, DiceModifier.getActualDice, List.range_succ]

/-- C9: for every pure-arithmetic expression of the grammar (no dice-roll
term, no variable reference, parentheses and negation allowed), re-parsing
the text returned for it yields the identical value. -/
theorem c9_reparse_idempotent :
    ∀ (e : Expr) (gen : Nat → Int) (st : EvalState) (res : ParseResult) (st' : EvalState),
      Gram 2 e → DiceParser.parse gen st e = .ok (res, st') →
      parseArithString res.string = some res.value := by
  intro e gen st res st' hg hp
  simp only [DiceParser.parse] at hp
  cases he : evalExpr gen e st with
  | error err => simp [he] at hp
  | ok p =>
      obtain ⟨i, st₁⟩ := p
      simp only [he] at hp
      obtain ⟨v, ext, hv, hheap, hi, hnode⟩ := evalArith gen 2 e hg st i st₁ he
      rw [hnode] at hp
      simp only [Except.ok.injEq, Prod.mk.injEq] at hp
      obtain ⟨h1, h2⟩ := hp
      subst h2
      subst h1
      simp only [parseArithString]
      have htok := tokenizeGram 2 e hg [] (by exact trivial)
      rw [List.append_nil] at htok
      rw [htok]
      have hparse := parseGram 2 e hg v hv [] (by exact trivial)
      rw [List.append_nil] at hparse
      rw [sumLoop_stop v [] (by exact trivial)] at hparse
      simp [tokenize, hparse]

/-- Witness for C9: `"(1 + 2) * 3"` parses to value 9 with text
`"(1 + 2) * 3"`, and that text re-parses to 9. -/
theorem c9_witness :
    parseArithString "(1 + 2) * 3" = some 9 := by
  have hg : Gram 2 (.mul (.brackets (.add (.number 1) (.number 2))) (.number 3)) :=
    Gram.productSum (Gram.mul
      (Gram.atomProduct (Gram.brackets (Gram.add
        (Gram.productSum (Gram.atomProduct (Gram.number 1)))
        (Gram.atomProduct (Gram.number 2)))))
      (Gram.number 3))
  have hp : DiceParser.parse constGen initState
      (.mul (.brackets (.add (.number 1) (.number 2))) (.number 3)) =
      .ok (⟨9, "(1 + 2) * 3"⟩,
        ⟨[⟨.int 1, some "1", none⟩, ⟨.int 2, some "2", none⟩, ⟨.int 3, some "1 + 2", none⟩,
          ⟨.int 3, some "(1 + 2)", none⟩, ⟨.int 3, some "3", none⟩,
          ⟨.int 9, some "(1 + 2) * 3", none⟩], [], 0⟩) := rfl
  exact c9_reparse_idempotent _ constGen initState _ _ hg hp

/-- C10: `var` returns the stored binding node itself and `dice_size`
assigns to that node's `value` field in place, so parsing `"x = -2"` and
then `"1dx"` in the same session overwrites the stored binding's value to
0: every subsequent reference to `x` yields 0 instead of the original
-2. -/
theorem c10_dice_size_mutates_binding :
    DiceParser.parse constGen initState (.assignVar "x" (.neg (.number 2))) =
      .ok (⟨-2, "x = -2"⟩,
        ⟨[⟨.int 2, some "2", none⟩, ⟨.int (-2), some "-2", none⟩, ⟨.int (-2), some "x", none⟩,
          ⟨.int (-2), some "x = -2", none⟩], [("x", 2)], 0⟩) ∧
    heapGet ⟨[⟨.int 2, some "2", none⟩, ⟨.int (-2), some "-2", none⟩, ⟨.int (-2), some "x", none⟩,
      ⟨.int (-2), some "x = -2", none⟩], [("x", 2)], 0⟩ 2 = ⟨.int (-2), some "x", none⟩ ∧
    DiceParser.parse constGen
        ⟨[⟨.int 2, some "2", none⟩, ⟨.int (-2), some "-2", none⟩, ⟨.int (-2), some "x", none⟩,
          ⟨.int (-2), some "x = -2", none⟩], [("x", 2)], 0⟩
        (.roll (.some (.diceCount (.number 1))) (.some (.diceSize (.var "x"))) .none) =
      .ok (⟨0, "[0]"⟩,
        ⟨[⟨.int 2, some "2", none⟩, ⟨.int (-2), some "-2", none⟩, ⟨.int 0, some "x", none⟩,
          ⟨.int (-2), some "x = -2", none⟩, ⟨.int 1, some "1", none⟩,
          ⟨.int 1, some "1", some "dice_count"⟩, ⟨.int 0, some "x", some "dice_size"⟩,
          ⟨.int 0, some "[0]", none⟩], [("x", 2)], 0⟩) ∧
    heapGet ⟨[⟨.int 2, some "2", none⟩, ⟨.int (-2), some "-2", none⟩, ⟨.int 0, some "x", none⟩,
      ⟨.int (-2), some "x = -2", none⟩, ⟨.int 1, some "1", none⟩,
      ⟨.int 1, some "1", some "dice_count"⟩, ⟨.int 0, some "x", some "dice_size"⟩,
      ⟨.int 0, some "[0]", none⟩], [("x", 2)], 0⟩ 2 = ⟨.int 0, some "x", none⟩ ∧
    DiceParser.parse constGen
        ⟨[⟨.int 2, some "2", none⟩, ⟨.int (-2), some "-2", none⟩, ⟨.int 0, some "x", none⟩,
          ⟨.int (-2), some "x = -2", none⟩, ⟨.int 1, some "1", none⟩,
          ⟨.int 1, some "1", some "dice_count"⟩, ⟨.int 0, some "x", some "dice_size"⟩,
          ⟨.int 0, some "[0]", none⟩], [("x", 2)], 0⟩ (.var "x") =
      .ok (⟨0, "x"⟩,
        ⟨[⟨.int 2, some "2", none⟩, ⟨.int (-2), some "-2", none⟩, ⟨.int 0, some "x", none⟩,
          ⟨.int (-2), some "x = -2", none⟩, ⟨.int 1, some "1", none⟩,
          ⟨.int 1, some "1", some "dice_count"⟩, ⟨.int 0, some "x", some "dice_size"⟩,
          ⟨.int 0, some "[0]", none⟩], [("x", 2)], 0⟩) :=
  ⟨rfl, rfl, rfl, rfl, rfl⟩
